import Mathlib

/-!
Shallow embedding of `@selentia/async-limiter` (src/limiter.ts): a
bounded-concurrency admission gate.  JavaScript numbers that matter for
control flow are modelled faithfully: the concurrency `limit` and `maxQueue`
are arbitrary rationals (the constructor only requires finiteness and sign,
`Infinity` is `none` for `maxQueue`), timeout options are a `JSNum` that can
also be `NaN` or infinite, and the `active` counter is an integer.  The
event-driven parts (promise settlement, abort listeners, timers) are modelled
as explicit state-passing functions mirroring the synchronous bodies of the
source methods, plus a `Step`/`Reachable` relation for the sequences of
operations the public API can perform.
-/

namespace AsyncLimiter

/-- Model of a JavaScript number as used by the option-validation code:
either a finite rational, one of the two infinities, or NaN. -/
inductive JSNum where
  | fin (q : ℚ)
  | posInf
  | negInf
  | nan
deriving DecidableEq

/-- Mirrors JavaScript `Number.isFinite`. -/
def JSNum.isFinite : JSNum → Bool
  | .fin _ => true
  | _ => false

/-- Mirrors the JavaScript comparison `ms < 0` (false for NaN). -/
def JSNum.ltZero : JSNum → Bool
  | .fin q => decide (q < 0)
  | .negInf => true
  | _ => false

/-- Shallow embedding of `assertValidTimeoutMs` (limiter.ts lines 39-44):
`none` models `undefined`/`null` and passes; otherwise the value must be
finite and not negative.  Returns `true` when no `RangeError` is thrown. -/
def validTimeoutMs : Option JSNum → Bool
  | none => true
  | some m => m.isFinite && !m.ltZero

/-- JavaScript nullish coalescing `a ?? b`, used on lines 107-108 to merge
per-call options with the limiter defaults. -/
def jsCoalesce {α : Type} : Option α → Option α → Option α
  | some a, _ => some a
  | none, b => b

/-- One entry of the wait queue (limiter.ts lines 14-19 and 46-58).
`eid` is the entry's identity (creation order); `removed` is the tombstone
flag; `settled` inlines the settled flag of the entry's `Defer`; `cleanup`
holds tokens naming the registered cleanup closures (abort-listener
detachment, timer cancellation). -/
structure QueueEntry where
  eid : Nat
  removed : Bool
  settled : Bool
  cleanup : List Nat
deriving DecidableEq

/-- An entry is live when it is neither tombstoned nor settled; only such an
entry can be resolved by the release-handoff loop. -/
def QueueEntry.isLive (e : QueueEntry) : Bool := !e.removed && !e.settled

/-- Shallow embedding of `entry.remove` (limiter.ts lines 51-55): early
return if already removed, otherwise set the flag and fire (and clear) every
cleanup closure.  Returns the new entry together with the list of cleanup
tokens fired by this call. -/
def QueueEntry.removeOp (e : QueueEntry) : QueueEntry × List Nat :=
  if e.removed then (e, [])
  else ({ e with removed := true, cleanup := [] }, e.cleanup)

/-- Iterate `remove` a number of times, concatenating the cleanup closures
fired by each call. -/
def QueueEntry.removeMany (e : QueueEntry) : Nat → QueueEntry × List Nat
  | 0 => (e, [])
  | n + 1 =>
    let p := e.removeOp
    let rest := p.1.removeMany n
    (rest.1, p.2 ++ rest.2)

/-- Settlement state of a `Defer` (limiter.ts lines 9-12, 225-240): the
`settled` flag plus which of resolve/reject won. -/
inductive DeferState where
  | pending
  | isResolved
  | isRejected
deriving DecidableEq

/-- A call made against a `Defer`: `resolve()` or `reject(err)`. -/
inductive DeferCall where
  | callResolve
  | callReject
deriving DecidableEq

/-- One resolve/reject call (limiter.ts lines 228-239): when the defer is
still pending the call settles it and returns `true`; otherwise it is a
no-op returning `false`. -/
def deferApply : DeferState → DeferCall → DeferState × Bool
  | .pending, .callResolve => (.isResolved, true)
  | .pending, .callReject => (.isRejected, true)
  | s, _ => (s, false)

/-- Run a sequence of resolve/reject calls against a defer, collecting the
Boolean each call returns. -/
def deferRun : DeferState → List DeferCall → DeferState × List Bool
  | s, [] => (s, [])
  | s, c :: cs =>
    let p := deferApply s c
    let rest := deferRun p.1 cs
    (rest.1, p.2 :: rest.2)

/-- The mutable state of one `Limiter` instance (limiter.ts lines 66-90),
together with the immutable configuration fixed by the constructor.
`maxQueue = none` models `Infinity`.  `nextId` and `nextWid` are ghost
counters handing out identities to queue entries and idle waiters. -/
structure LimiterState where
  limit : ℚ
  maxQueue : Option ℚ
  defaultQueueTimeoutMs : Option JSNum
  active : ℤ
  queue : List QueueEntry
  nextId : Nat
  idleWaiters : List Nat
  nextWid : Nat
deriving DecidableEq

/-- The state built by the constructor (limiter.ts lines 77-90) after its
validation asserts have passed. -/
def LimiterState.init (limit : ℚ) (maxQueue : Option ℚ)
    (defaultQueueTimeoutMs : Option JSNum) : LimiterState :=
  { limit := limit, maxQueue := maxQueue,
    defaultQueueTimeoutMs := defaultQueueTimeoutMs,
    active := 0, queue := [], nextId := 0, idleWaiters := [], nextWid := 0 }

/-- The `pendingCount` getter (limiter.ts lines 96-98): the raw length of
the queue array. -/
def LimiterState.pendingCount (s : LimiterState) : Nat := s.queue.length

/-- The `activeCount` getter (limiter.ts lines 92-94). -/
def LimiterState.activeCount (s : LimiterState) : ℤ := s.active

/-- Shallow embedding of `emitIdleIfNeeded` (limiter.ts lines 165-168): if
a task is active or the queue is nonempty do nothing; otherwise notify every
registered idle waiter (each fired waiter's own cleanup removes it from the
set, so the set empties).  Returns the new state and the notified waiters. -/
def emitIdleIfNeeded (s : LimiterState) : LimiterState × List Nat :=
  if s.active ≠ 0 ∨ s.queue.length ≠ 0 then (s, [])
  else ({ s with idleWaiters := [] }, s.idleWaiters)

/-- The loop body of `release` with `shiftNext` (limiter.ts lines 189-214)
inlined: pop from the head skipping tombstoned entries; a popped live entry
is marked removed and its defer resolved; if resolve returns `false` (the
entry was already settled by a race) loop on; when the queue is exhausted
decrement `active`.  Returns the new active count, the remaining queue, and
the identity of the entry whose waiter was resolved, if any. -/
def releaseAux (active : ℤ) : List QueueEntry → ℤ × List QueueEntry × Option Nat
  | [] => (active - 1, [], none)
  | e :: rest =>
    if e.removed then releaseAux active rest
    else if e.settled then releaseAux active rest
    else (active, rest, some e.eid)

/-- Shallow embedding of `release` (limiter.ts lines 189-205): run the
handoff loop; only the exhausted-queue branch runs the idle check.  Returns
the new state, the resolved entry's identity if a handoff happened, and the
idle waiters notified. -/
def release (s : LimiterState) : LimiterState × Option Nat × List Nat :=
  let r := releaseAux s.active s.queue
  match r.2.2 with
  | some i => ({ s with active := r.1, queue := r.2.1 }, some i, [])
  | none =>
    let p := emitIdleIfNeeded { s with active := r.1, queue := r.2.1 }
    (p.1, none, p.2)

/-- The `indexOf` + `splice(idx, 1)` pair (limiter.ts lines 245-246):
physically remove the first entry with the given identity, if present. -/
def eraseById : List QueueEntry → Nat → List QueueEntry
  | [], _ => []
  | e :: rest, i => if e.eid = i then rest else e :: eraseById rest i

/-- Shallow embedding of the `removeFromQueue` closure of `waitForTurn`
(limiter.ts lines 242-248) for the entry with identity `i`: if the entry is
already tombstoned do nothing (an entry no longer in the array was marked
removed by `release` before it left, so absence is also a no-op); otherwise
mark it removed firing its cleanups, splice it out of the array, and run the
idle check.  Returns the new state, the cleanups fired, and the idle waiters
notified. -/
def removeFromQueue (s : LimiterState) (i : Nat) : LimiterState × List Nat × List Nat :=
  match s.queue.find? (fun e => e.eid == i) with
  | none => (s, [], [])
  | some e =>
    if e.removed then (s, [], [])
    else
      let p := emitIdleIfNeeded { s with queue := eraseById s.queue i }
      (p.1, e.cleanup, p.2)

/-- How a call to `onIdle` leaves the caller before its first suspension. -/
inductive IdleOutcome where
  | rangeError
  | abortedNow
  | immediate
  | registered (wid : Nat)
deriving DecidableEq

/-- Shallow embedding of `onIdle` up to its first suspension (limiter.ts
lines 126-163).  `signal = none` models an absent signal, `some b` a signal
whose aborted flag is `b`.  Returns the outcome, the new state, and how many
registrations were performed (idle waiter, abort listener, timer). -/
def onIdle (s : LimiterState) (signal : Option Bool) (timeoutMs : Option JSNum) :
    IdleOutcome × LimiterState × Nat :=
  if !(validTimeoutMs timeoutMs) then (.rangeError, s, 0)
  else if signal = some true then (.abortedNow, s, 0)
  else if s.active = 0 ∧ s.queue.length = 0 then (.immediate, s, 0)
  else
    let s1 : LimiterState :=
      { s with idleWaiters := s.idleWaiters ++ [s.nextWid], nextWid := s.nextWid + 1 }
    (.registered s.nextWid, (emitIdleIfNeeded s1).1,
     1 + (if signal.isSome then 1 else 0) + (if timeoutMs.isSome then 1 else 0))

/-- How a call to `run` leaves the caller before its task could start
waiting or running. -/
inductive RunOutcome where
  | rangeError
  | abortError
  | queueOverflow
  | started
  | enqueued (eid : Nat)
deriving DecidableEq

/-- The fresh queue entry appended by `waitForTurn` (limiter.ts lines
225-266): not removed, not settled, with the cleanup closures registered for
it (abort-listener detachment and timer cancellation) abstracted by the
token list `cl`. -/
def enqueueEntry (s : LimiterState) (cl : List Nat) : LimiterState :=
  { s with
      queue := s.queue ++ [{ eid := s.nextId, removed := false, settled := false, cleanup := cl }],
      nextId := s.nextId + 1 }

/-- The overflow test `this.queue.length >= this.maxQueue` (limiter.ts line
180); every length compares below `Infinity`. -/
def queueIsFull (s : LimiterState) : Bool :=
  match s.maxQueue with
  | none => false
  | some m => decide ((s.queue.length : ℚ) ≥ m)

/-- Shallow embedding of `run` up to its first suspension, with `acquire`
and the synchronous prefix of `waitForTurn` inlined (limiter.ts lines
106-121, 170-187, 216-266): merge the per-call options with the defaults,
validate the effective queue timeout, test the effective signal, then admit
immediately when `active < limit`, reject on overflow when the queue is
full, and otherwise append a fresh queue entry (after `waitForTurn`
re-tests the signal). -/
def runStep (s : LimiterState) (optSignal dfltSignal : Option Bool)
    (optTimeout : Option JSNum) (cl : List Nat) : RunOutcome × LimiterState :=
  let signal := jsCoalesce optSignal dfltSignal
  let queueTimeoutMs := jsCoalesce optTimeout s.defaultQueueTimeoutMs
  if !(validTimeoutMs queueTimeoutMs) then (.rangeError, s)
  else if signal = some true then (.abortError, s)
  else if signal = some true then (.abortError, s)
  else if (s.active : ℚ) < s.limit then (.started, { s with active := s.active + 1 })
  else if queueIsFull s then (.queueOverflow, s)
  else if signal = some true then (.abortError, s)
  else (.enqueued s.nextId, enqueueEntry s cl)

/-- The tail of `run` after admission (limiter.ts lines 116-120): the task
runs inside `try`, `release` runs in the `finally`, and the task's outcome
— returned value or thrown error — is passed through unchanged on the
matching exit path. -/
def finishTask {α β : Type} (s : LimiterState) (taskResult : Except α β) :
    LimiterState × Except α β :=
  match taskResult with
  | .ok v => ((release s).1, .ok v)
  | .error err => ((release s).1, .error err)

/-- One externally triggerable mutation of the gate's state: immediate
admission, enqueueing (both from `acquire`), a running task finishing
(`release`), an abort/timeout firing for a queued entry (`removeFromQueue`;
the subsequent `defer.reject` concerns an entry already outside the state),
and registration/deregistration of idle waiters by `onIdle`. -/
inductive Step : LimiterState → LimiterState → Prop where
  | acquireImmediate (s : LimiterState) (h : (s.active : ℚ) < s.limit) :
      Step s { s with active := s.active + 1 }
  | acquireQueue (s : LimiterState) (cl : List Nat)
      (h1 : ¬ (s.active : ℚ) < s.limit) (h2 : queueIsFull s = false) :
      Step s (enqueueEntry s cl)
  | finish (s : LimiterState) (h : 1 ≤ s.active) :
      Step s (release s).1
  | cancelEntry (s : LimiterState) (i : Nat) :
      Step s (removeFromQueue s i).1
  | idleCall (s : LimiterState) (signal : Option Bool) (timeoutMs : Option JSNum) :
      Step s (onIdle s signal timeoutMs).2.1
  | idleDrop (s : LimiterState) (w : Nat) :
      Step s { s with idleWaiters := s.idleWaiters.erase w }

/-- A state is reachable when it arises from a validly constructed limiter
(limiter.ts lines 77-90: `limit` finite positive, `maxQueue` nonnegative or
`Infinity`, valid default timeout) by any sequence of steps. -/
inductive Reachable : LimiterState → Prop where
  | init (limit : ℚ) (maxQueue : Option ℚ) (dflt : Option JSNum)
      (hl : 0 < limit) (hm : ∀ m, maxQueue = some m → 0 ≤ m)
      (hd : validTimeoutMs dflt = true) :
      Reachable (LimiterState.init limit maxQueue dflt)
  | step {s t : LimiterState} (hs : Reachable s) (ht : Step s t) : Reachable t

/-- A demonstration limiter with concurrency limit 1 and no options. -/
def demo0 : LimiterState := LimiterState.init 1 none none

/-- demo0 after one immediate admission (a task is running). -/
def demo1 : LimiterState := { demo0 with active := demo0.active + 1 }

/-- demo1 after a second submission was queued. -/
def demo2 : LimiterState := enqueueEntry demo1 []

/-- demo2 after a third submission was queued. -/
def demo3 : LimiterState := enqueueEntry demo2 []

/-- A limiter with limit 1 and maxQueue 0 while one task runs: any further
submission overflows. -/
def ovState : LimiterState := { LimiterState.init 1 (some 0) none with active := 1 }

/-- A limiter constructed with the fractional limit 1/2, which
`assertValidLimit` (limiter.ts lines 25-29) accepts: it only requires a
finite number strictly greater than zero. -/
def halfLimit : LimiterState := LimiterState.init (mkRat 1 2) none none

/-- halfLimit after one immediate admission, taken because 0 < 1/2. -/
def halfLimitBusy : LimiterState := { halfLimit with active := halfLimit.active + 1 }

/-- The inductive invariant maintained by every reachable state: a valid
positive limit, `active` between `0` and `⌈limit⌉`, a queue whose entries
are all untombstoned and unsettled, and strictly increasing (hence
arrival-ordered and duplicate-free) entry identities bounded by the ghost
counter. -/
structure Inv (s : LimiterState) : Prop where
  limit_pos : 0 < s.limit
  active_nonneg : 0 ≤ s.active
  active_le : s.active ≤ ⌈s.limit⌉
  queue_clean : ∀ e ∈ s.queue, e.removed = false ∧ e.settled = false
  queue_sorted : s.queue.Pairwise (fun a b => a.eid < b.eid)
  queue_bounded : ∀ e ∈ s.queue, e.eid < s.nextId

theorem emitIdle_core (s : LimiterState) :
    (emitIdleIfNeeded s).1.limit = s.limit ∧ (emitIdleIfNeeded s).1.active = s.active ∧
    (emitIdleIfNeeded s).1.queue = s.queue ∧ (emitIdleIfNeeded s).1.nextId = s.nextId := by
  unfold emitIdleIfNeeded
  split <;> exact ⟨rfl, rfl, rfl, rfl⟩

/-- Transfer the invariant along equality of the fields it mentions. -/
theorem Inv.of_core_eq {s t : LimiterState} (hi : Inv s)
    (hl : t.limit = s.limit) (ha : t.active = s.active)
    (hq : t.queue = s.queue) (hn : t.nextId = s.nextId) : Inv t := by
  refine ⟨?_, ?_, ?_, ?_, ?_, ?_⟩
  · rw [hl]; exact hi.limit_pos
  · rw [ha]; exact hi.active_nonneg
  · rw [ha, hl]; exact hi.active_le
  · rw [hq]; exact hi.queue_clean
  · rw [hq]; exact hi.queue_sorted
  · rw [hq, hn]; exact hi.queue_bounded

theorem releaseAux_cons_live (active : ℤ) (e : QueueEntry) (rest : List QueueEntry)
    (h1 : e.removed = false) (h2 : e.settled = false) :
    releaseAux active (e :: rest) = (active, rest, some e.eid) := by
  simp [releaseAux, h1, h2]

/-- Physical removal produces a sublist of the original queue. -/
theorem eraseById_sublist (q : List QueueEntry) (i : Nat) :
    (eraseById q i).Sublist q := by
  induction q with
  | nil => exact List.Sublist.slnil
  | cons x xs ih =>
    by_cases hx : x.eid = i
    · rw [eraseById, if_pos hx]
      exact List.sublist_cons_self x xs
    · rw [eraseById, if_neg hx]
      exact List.Sublist.cons₂ x ih

theorem inv_step {s t : LimiterState} (hi : Inv s) (st : Step s t) : Inv t := by
  cases st with
  | acquireImmediate h =>
    have hlt : s.active < ⌈s.limit⌉ := Int.lt_ceil.mpr h
    have h0 := hi.active_nonneg
    refine ⟨hi.limit_pos, ?_, ?_, hi.queue_clean, hi.queue_sorted, hi.queue_bounded⟩
    · show 0 ≤ s.active + 1
      omega
    · show s.active + 1 ≤ ⌈s.limit⌉
      omega
  | acquireQueue cl h1 h2 =>
    refine ⟨hi.limit_pos, hi.active_nonneg, hi.active_le, ?_, ?_, ?_⟩
    · intro e he
      rcases List.mem_append.mp he with h | h
      · exact hi.queue_clean e h
      · rcases List.mem_singleton.mp h with rfl
        exact ⟨rfl, rfl⟩
    · refine List.pairwise_append.mpr ⟨hi.queue_sorted, List.pairwise_singleton _ _, ?_⟩
      intro a ha b hb
      rcases List.mem_singleton.mp hb with rfl
      exact hi.queue_bounded a ha
    · intro e he
      rcases List.mem_append.mp he with h | h
      · exact Nat.lt_succ_of_lt (hi.queue_bounded e h)
      · rcases List.mem_singleton.mp h with rfl
        exact Nat.lt_succ_self _
  | finish h =>
    cases hq : s.queue with
    | nil =>
      have hrel : (release s).1 =
          (emitIdleIfNeeded { s with active := s.active - 1, queue := [] }).1 := by
        simp [release, hq, releaseAux]
      obtain ⟨hl, ha, hqq, hn⟩ :=
        emitIdle_core { s with active := s.active - 1, queue := [] }
      rw [hrel]
      have hle := hi.active_le
      refine ⟨?_, ?_, ?_, ?_, ?_, ?_⟩
      · rw [hl]
        exact hi.limit_pos
      · rw [ha]
        show 0 ≤ s.active - 1
        omega
      · rw [ha, hl]
        show s.active - 1 ≤ ⌈s.limit⌉
        omega
      · rw [hqq]
        intro e he
        cases he
      · rw [hqq]
        exact List.Pairwise.nil
      · rw [hqq]
        intro e he
        cases he
    | cons e rest =>
      have he : e.removed = false ∧ e.settled = false := by
        have hc := hi.queue_clean e
        rw [hq] at hc
        exact hc (List.mem_cons_self e rest)
      have hrel : (release s).1 = { s with active := s.active, queue := rest } := by
        simp [release, hq, releaseAux, he.1, he.2]
      rw [hrel]
      have hclean := hi.queue_clean
      have hsorted := hi.queue_sorted
      have hbound := hi.queue_bounded
      rw [hq] at hclean hsorted hbound
      exact ⟨hi.limit_pos, hi.active_nonneg, hi.active_le,
        fun x hx => hclean x (List.mem_cons_of_mem e hx),
        (List.pairwise_cons.mp hsorted).2,
        fun x hx => hbound x (List.mem_cons_of_mem e hx)⟩
  | cancelEntry i =>
    cases hf : s.queue.find? (fun e => e.eid == i) with
    | none => simpa [removeFromQueue, hf] using hi
    | some e =>
      cases hrm : e.removed with
      | true => simpa [removeFromQueue, hf, hrm] using hi
      | false =>
        have hrel : (removeFromQueue s i).1 =
            (emitIdleIfNeeded { s with queue := eraseById s.queue i }).1 := by
          simp [removeFromQueue, hf, hrm]
        obtain ⟨hl, ha, hqq, hn⟩ := emitIdle_core { s with queue := eraseById s.queue i }
        have hsub : (eraseById s.queue i).Sublist s.queue := eraseById_sublist s.queue i
        rw [hrel]
        refine Inv.of_core_eq ?_ hl ha hqq hn
        exact ⟨hi.limit_pos, hi.active_nonneg, hi.active_le,
          fun x hx => hi.queue_clean x (hsub.mem hx),
          hi.queue_sorted.sublist hsub,
          fun x hx => hi.queue_bounded x (hsub.mem hx)⟩
  | idleCall signal timeoutMs =>
    unfold onIdle
    split
    · exact hi
    · split
      · exact hi
      · split
        · exact hi
        · refine Inv.of_core_eq hi ?_ ?_ ?_ ?_ <;>
            simp [emitIdle_core]
  | idleDrop w =>
    exact Inv.of_core_eq hi rfl rfl rfl rfl

/-- Every reachable state satisfies the inductive invariant. -/
theorem reachable_inv {s : LimiterState} (h : Reachable s) : Inv s := by
  induction h with
  | init limit maxQueue dflt hl hm hd =>
    exact ⟨hl, le_refl 0, Int.le_of_lt (Int.ceil_pos.mpr hl),
      fun e he => absurd he (List.not_mem_nil e),
      List.Pairwise.nil, fun e he => absurd he (List.not_mem_nil e)⟩
  | step hs ht ih => exact inv_step ih ht

theorem demo0_reachable : Reachable demo0 :=
  Reachable.init 1 none none (by decide) (fun m h => nomatch h) rfl

theorem demo1_reachable : Reachable demo1 :=
  Reachable.step demo0_reachable (Step.acquireImmediate demo0 (by decide))

theorem demo2_reachable : Reachable demo2 :=
  Reachable.step demo1_reachable (Step.acquireQueue demo1 [] (by decide) rfl)

theorem demo3_reachable : Reachable demo3 :=
  Reachable.step demo2_reachable (Step.acquireQueue demo2 [] (by decide) rfl)

theorem halfLimitBusy_reachable : Reachable halfLimitBusy :=
  Reachable.step
    (Reachable.init (mkRat 1 2) none none (by decide) (fun m h => nomatch h) rfl)
    (Step.acquireImmediate halfLimit (by decide))

/-- The handoff loop resolves exactly the first live entry of the queue,
leaves `active` untouched, and drops everything up to and including that
entry. -/
theorem releaseAux_spec (a : ℤ) (q : List QueueEntry) :
    releaseAux a q =
      match q.find? QueueEntry.isLive with
      | some e => (a, (q.dropWhile (fun x => !x.isLive)).tail, some e.eid)
      | none => (a - 1, [], none) := by
  induction q with
  | nil => rfl
  | cons e rest ih =>
    cases hrm : e.removed with
    | true =>
      have hl : e.isLive = false := by simp [QueueEntry.isLive, hrm]
      simp only [releaseAux, hrm, if_true, List.find?_cons, hl, List.dropWhile_cons,
        Bool.not_false, cond_false, cond_true, ite_true]
      exact ih
    | false =>
      cases hst : e.settled with
      | true =>
        have hl : e.isLive = false := by simp [QueueEntry.isLive, hrm, hst]
        simp only [releaseAux, hrm, hst, List.find?_cons, hl, List.dropWhile_cons,
          Bool.not_false, cond_false, ite_false, ite_true]
        exact ih
      | false =>
        have hl : e.isLive = true := by simp [QueueEntry.isLive, hrm, hst]
        simp [releaseAux, hrm, hst, List.find?_cons, hl, List.dropWhile_cons]

/-- Characterization of `release` when a live entry exists: the waiter of
the first live entry is resolved and `active` is unchanged. -/
theorem release_of_found {s : LimiterState} {e : QueueEntry}
    (he : s.queue.find? QueueEntry.isLive = some e) :
    release s =
      ({ s with active := s.active, queue := (s.queue.dropWhile (fun x => !x.isLive)).tail },
       some e.eid, []) := by
  have hs := releaseAux_spec s.active s.queue
  rw [he] at hs
  simp [release, hs]

/-- Characterization of `release` when the queue holds no live entry:
`active` is decremented, the queue is emptied, and the idle check runs. -/
theorem release_of_exhausted {s : LimiterState}
    (hn : s.queue.find? QueueEntry.isLive = none) :
    release s =
      ((emitIdleIfNeeded { s with active := s.active - 1, queue := [] }).1, none,
       (emitIdleIfNeeded { s with active := s.active - 1, queue := [] }).2) := by
  have hs := releaseAux_spec s.active s.queue
  rw [hn] at hs
  simp [release, hs]

/-- Release never increases the active count. -/
theorem release_active_le (s : LimiterState) : (release s).1.active ≤ s.active := by
  cases hf : s.queue.find? QueueEntry.isLive with
  | none =>
    rw [release_of_exhausted hf]
    rw [(emitIdle_core { s with active := s.active - 1, queue := [] }).2.1]
    show s.active - 1 ≤ s.active
    omega
  | some e =>
    rw [release_of_found hf]

/-- Once a defer is settled, every further resolve/reject call is a no-op
returning false. -/
theorem deferRun_settled (s : DeferState) (cs : List DeferCall) (h : s ≠ .pending) :
    deferRun s cs = (s, List.replicate cs.length false) := by
  induction cs with
  | nil => rfl
  | cons c cs ih =>
    have ha : deferApply s c = (s, false) := by
      cases s with
      | pending => exact absurd rfl h
      | isResolved => cases c <;> rfl
      | isRejected => cases c <;> rfl
    simp [deferRun, ha, ih, List.replicate]

/-- Removing an already-removed entry any number of times is a no-op that
fires no cleanup. -/
theorem removeMany_removed (e : QueueEntry) (h : e.removed = true) (n : Nat) :
    e.removeMany n = (e, []) := by
  induction n with
  | zero => rfl
  | succ n ih =>
    have hop : e.removeOp = (e, []) := by simp [QueueEntry.removeOp, h]
    simp [QueueEntry.removeMany, hop, ih]

theorem find?_eq_none_of_all {q : List QueueEntry} {i : Nat}
    (h : ∀ e ∈ q, e.eid ≠ i) : q.find? (fun e => e.eid == i) = none := by
  apply List.find?_eq_none.mpr
  intro e he
  simpa using h e he

/-- After the physical removal of the entry with identity `i` from a queue
with strictly increasing identities, no entry with identity `i` remains. -/
theorem find?_eraseById (q : List QueueEntry) (i : Nat)
    (hs : q.Pairwise (fun a b => a.eid < b.eid)) :
    (eraseById q i).find? (fun e => e.eid == i) = none := by
  induction q with
  | nil => rfl
  | cons x xs ih =>
    rcases List.pairwise_cons.mp hs with ⟨hx, hxs⟩
    by_cases hxi : x.eid = i
    · rw [eraseById, if_pos hxi]
      apply find?_eq_none_of_all
      intro e he
      have := hx e he
      omega
    · rw [eraseById, if_neg hxi]
      have hb : (x.eid == i) = false := by simpa using hxi
      simp [List.find?_cons, hb, ih hxs]

/-- A removal request whose entry is no longer findable is a no-op. -/
theorem removeFromQueue_not_found {s : LimiterState} {i : Nat}
    (h : s.queue.find? (fun e => e.eid == i) = none) :
    removeFromQueue s i = (s, [], []) := by
  simp [removeFromQueue, h]

/-- C3: the release-handoff loop never strands a freed slot and a removed
entry never blocks promotion: it pops the queue skipping entries marked
removed, retries past entries whose resolve fails (already settled), and
resolves exactly the first live waiter with `active` unchanged and no idle
notification; only when the queue holds no live entry does it decrement
`active`, drain the queue, and trigger the idle check. -/
theorem release_never_strands (s : LimiterState) :
    (∀ e, s.queue.find? QueueEntry.isLive = some e →
        (release s).1.active = s.active ∧
        (release s).2.1 = some e.eid ∧
        (release s).2.2 = [] ∧
        (release s).1.queue = (s.queue.dropWhile (fun x => !x.isLive)).tail) ∧
    (s.queue.find? QueueEntry.isLive = none →
        (release s).1.active = s.active - 1 ∧
        (release s).1.queue = [] ∧
        (release s).2.1 = none ∧
        (release s).2.2 =
          (emitIdleIfNeeded { s with active := s.active - 1, queue := [] }).2) := by
  constructor
  · intro e he
    rw [release_of_found he]
    exact ⟨rfl, rfl, rfl, rfl⟩
  · intro hn
    rw [release_of_exhausted hn]
    obtain ⟨hl, ha, hq, hi⟩ := emitIdle_core { s with active := s.active - 1, queue := [] }
    exact ⟨ha, hq, rfl, rfl⟩

/-- Witness for C3 at a concrete saturated limiter with two queued
entries. -/
theorem release_never_strands_witness :
    (∀ e, demo3.queue.find? QueueEntry.isLive = some e →
        (release demo3).1.active = demo3.active ∧
        (release demo3).2.1 = some e.eid ∧
        (release demo3).2.2 = [] ∧
        (release demo3).1.queue = (demo3.queue.dropWhile (fun x => !x.isLive)).tail) ∧
    (demo3.queue.find? QueueEntry.isLive = none →
        (release demo3).1.active = demo3.active - 1 ∧
        (release demo3).1.queue = [] ∧
        (release demo3).2.1 = none ∧
        (release demo3).2.2 =
          (emitIdleIfNeeded { demo3 with active := demo3.active - 1, queue := [] }).2) :=
  release_never_strands demo3

/-- C6: for every queue-entry waiter, at most one of resolve/reject has
effect: the first call settles the defer and returns true, and every later
call, of either kind and in any order, returns false and leaves the
settlement unchanged. -/
theorem defer_settles_once (c : DeferCall) (cs : List DeferCall) :
    (deferRun .pending (c :: cs)).2 = true :: List.replicate cs.length false ∧
    (deferRun .pending (c :: cs)).1 = (deferApply .pending c).1 := by
  cases c with
  | callResolve =>
    have hs := deferRun_settled .isResolved cs (fun h => DeferState.noConfusion h)
    simp [deferRun, deferApply, hs]
  | callReject =>
    have hs := deferRun_settled .isRejected cs (fun h => DeferState.noConfusion h)
    simp [deferRun, deferApply, hs]

/-- C7: an entry's remove is idempotent and its cleanup closures fire
exactly once no matter how many times removal is triggered; at the limiter
level, a second removeFromQueue for the same entry is a complete no-op. -/
theorem entry_removal_once :
    (∀ (e : QueueEntry) (n : Nat), e.removed = false → 1 ≤ n →
        e.removeMany n = ({ e with removed := true, cleanup := [] }, e.cleanup)) ∧
    (∀ (s : LimiterState) (i : Nat), Reachable s →
        removeFromQueue (removeFromQueue s i).1 i = ((removeFromQueue s i).1, [], [])) := by
  constructor
  · intro e n h0 h1
    cases n with
    | zero => exact absurd h1 (by decide)
    | succ n =>
      have hop : e.removeOp = ({ e with removed := true, cleanup := [] }, e.cleanup) := by
        simp [QueueEntry.removeOp, h0]
      have hrm : ({ e with removed := true, cleanup := [] } : QueueEntry).removed = true := rfl
      simp [QueueEntry.removeMany, hop, removeMany_removed _ hrm n]
  · intro s i hr
    cases hf : s.queue.find? (fun e => e.eid == i) with
    | none =>
      simp [removeFromQueue_not_found hf]
    | some e =>
      have hinv := reachable_inv hr
      have hmem : e ∈ s.queue := List.mem_of_find?_eq_some hf
      have hrm : e.removed = false := (hinv.queue_clean e hmem).1
      have h1 : (removeFromQueue s i).1 =
          (emitIdleIfNeeded { s with queue := eraseById s.queue i }).1 := by
        simp [removeFromQueue, hf, hrm]
      have hq1 : (removeFromQueue s i).1.queue = eraseById s.queue i := by
        rw [h1]
        exact (emitIdle_core { s with queue := eraseById s.queue i }).2.2.1
      have hnone : ((removeFromQueue s i).1.queue).find? (fun e => e.eid == i) = none := by
        rw [hq1]
        exact find?_eraseById s.queue i hinv.queue_sorted
      rw [removeFromQueue_not_found hnone]

/-- Witness for C7: two removals of a fresh entry with one cleanup token
fire that token once, and a duplicate removeFromQueue on a reachable
limiter is a no-op. -/
theorem entry_removal_once_witness :
    ({ eid := 0, removed := false, settled := false, cleanup := [5] } : QueueEntry).removeMany 2 =
      ({ eid := 0, removed := true, settled := false, cleanup := [] }, [5]) ∧
    removeFromQueue (removeFromQueue demo3 0).1 0 = ((removeFromQueue demo3 0).1, [], []) :=
  ⟨entry_removal_once.1 { eid := 0, removed := false, settled := false, cleanup := [5] } 2
      rfl (by decide),
   entry_removal_once.2 demo3 0 demo3_reachable⟩

/-- C9: after the task completes — returning or throwing — the finally
clause invokes release-handoff on every exit path and the task's outcome
propagates to the caller unchanged; the slot is decremented when no live
waiter exists and handed off (active unchanged) otherwise. -/
theorem run_propagates_and_releases {α β : Type} (s : LimiterState) (r : Except α β) :
    (finishTask s r).1 = (release s).1 ∧
    (finishTask s r).2 = r ∧
    (s.queue.find? QueueEntry.isLive = none → (finishTask s r).1.active = s.active - 1) ∧
    (∀ e, s.queue.find? QueueEntry.isLive = some e → (finishTask s r).1.active = s.active) := by
  have h1 : (finishTask s r).1 = (release s).1 := by cases r <;> rfl
  have h2 : (finishTask s r).2 = r := by cases r <;> rfl
  refine ⟨h1, h2, ?_, ?_⟩
  · intro hn
    rw [h1, release_of_exhausted hn]
    exact (emitIdle_core { s with active := s.active - 1, queue := [] }).2.1
  · intro e he
    rw [h1, release_of_found he]

/-- Witness for C9 at a limiter with one running task, an empty queue, and
a throwing task. -/
theorem run_propagates_and_releases_witness :
    (finishTask demo1 (Except.error 7 : Except ℕ ℕ)).1 = (release demo1).1 ∧
    (finishTask demo1 (Except.error 7 : Except ℕ ℕ)).2 = (Except.error 7 : Except ℕ ℕ) ∧
    (demo1.queue.find? QueueEntry.isLive = none →
        (finishTask demo1 (Except.error 7 : Except ℕ ℕ)).1.active = demo1.active - 1) ∧
    (∀ e, demo1.queue.find? QueueEntry.isLive = some e →
        (finishTask demo1 (Except.error 7 : Except ℕ ℕ)).1.active = demo1.active) :=
  run_propagates_and_releases demo1 (Except.error 7)

/-- C10: an invalid (negative or non-finite) effective queue timeout makes
run fail with a RangeError before the signal is consulted, for every signal
state and every gate state, leaving the state unchanged. -/
theorem run_timeout_validation_first (s : LimiterState) (optSignal dfltSignal : Option Bool)
    (optTimeout : Option JSNum) (cl : List Nat) (m : JSNum)
    (hm : jsCoalesce optTimeout s.defaultQueueTimeoutMs = some m)
    (hbad : m.isFinite = false ∨ m.ltZero = true) :
    runStep s optSignal dfltSignal optTimeout cl = (.rangeError, s) := by
  have hv : validTimeoutMs (jsCoalesce optTimeout s.defaultQueueTimeoutMs) = false := by
    rw [hm]
    rcases hbad with h | h <;> simp [validTimeoutMs, h]
  simp [runStep, hv]

/-- Witness for C10: a NaN timeout beats an already-aborted signal even
though a slot is free. -/
theorem run_timeout_validation_first_witness :
    jsCoalesce (some JSNum.nan) demo0.defaultQueueTimeoutMs = some JSNum.nan ∧
    (JSNum.nan.isFinite = false ∨ JSNum.nan.ltZero = true) ∧
    runStep demo0 (some true) none (some JSNum.nan) [] = (.rangeError, demo0) :=
  ⟨rfl, Or.inl rfl,
   run_timeout_validation_first demo0 (some true) none (some JSNum.nan) [] JSNum.nan
     rfl (Or.inl rfl)⟩

/-- C1 (amended): in every reachable state, 0 ≤ active ≤ ⌈limit⌉ — so
active ≤ limit whenever the configured limit is an integer — because
acquire increments active only when active < limit, and a release-handoff
never increments active. -/
theorem active_bounds (s : LimiterState) (h : Reachable s) :
    0 ≤ s.active ∧ s.active ≤ ⌈s.limit⌉ ∧ (release s).1.active ≤ s.active := by
  have hi := reachable_inv h
  exact ⟨hi.active_nonneg, hi.active_le, release_active_le s⟩

/-- C1 exactly as stated is false on the code: `assertValidLimit` accepts
the fractional limit 1/2, and after one immediate admission (taken because
0 < 1/2) the reachable state has active = 1 > 1/2 = limit. -/
theorem active_le_limit_cex :
    Reachable halfLimitBusy ∧ ¬ ((halfLimitBusy.active : ℚ) ≤ halfLimitBusy.limit) :=
  ⟨halfLimitBusy_reachable, by decide⟩

/-- Witness for C1 at a limiter with limit 1 and one running task. -/
theorem active_bounds_witness :
    0 ≤ demo1.active ∧ demo1.active ≤ ⌈demo1.limit⌉ ∧
    (release demo1).1.active ≤ demo1.active :=
  active_bounds demo1 demo1_reachable

/-- C2: queue entries carry strictly increasing identities in queue order
(identities are assigned in arrival order and entries are appended at the
tail), and a release-handoff resolves a waiter whose identity is strictly
smaller than that of every entry still queued afterwards — so live entries
are admitted in arrival order. -/
theorem fifo_admission (s : LimiterState) (h : Reachable s) :
    s.queue.Pairwise (fun a b => a.eid < b.eid) ∧
    (∀ i, (release s).2.1 = some i → ∀ e ∈ (release s).1.queue, i < e.eid) := by
  have hi := reachable_inv h
  refine ⟨hi.queue_sorted, ?_⟩
  intro i hres e he
  cases hq : s.queue with
  | nil =>
    have hn : s.queue.find? QueueEntry.isLive = none := by
      rw [hq]
      rfl
    rw [release_of_exhausted hn] at hres
    cases hres
  | cons x rest =>
    have hx := hi.queue_clean x (by rw [hq]; exact List.mem_cons_self x rest)
    have hlive : x.isLive = true := by simp [QueueEntry.isLive, hx.1, hx.2]
    have hfind : s.queue.find? QueueEntry.isLive = some x := by
      rw [hq]
      simp [List.find?_cons, hlive]
    have hrel := release_of_found hfind
    have hie : x.eid = i := Option.some.inj (by rw [← hres, hrel])
    have hqe : (release s).1.queue = (s.queue.dropWhile (fun y => !y.isLive)).tail := by
      rw [hrel]
    have htail : (s.queue.dropWhile (fun y => !y.isLive)).tail = rest := by
      rw [hq]
      simp [List.dropWhile_cons, hlive]
    rw [hqe, htail] at he
    have hp := hi.queue_sorted
    rw [hq] at hp
    have hlt := (List.pairwise_cons.mp hp).1 e he
    omega

/-- Witness for C2 at a saturated limiter with two queued entries. -/
theorem fifo_admission_witness :
    demo3.queue.Pairwise (fun a b => a.eid < b.eid) ∧
    (∀ i, (release demo3).2.1 = some i → ∀ e ∈ (release demo3).1.queue, i < e.eid) :=
  fifo_admission demo3 demo3_reachable

/-- C4: with a valid effective queue timeout, run fails atomically before
admission: an already-aborted effective signal yields the Abort failure,
and otherwise a saturated gate with a full queue yields the Queue-Overflow
failure; in both cases the state — active and queue included — is returned
unchanged and no entry is created. -/
theorem run_refusal_atomic (s : LimiterState) (optSignal dfltSignal : Option Bool)
    (optTimeout : Option JSNum) (cl : List Nat)
    (hv : validTimeoutMs (jsCoalesce optTimeout s.defaultQueueTimeoutMs) = true) :
    (jsCoalesce optSignal dfltSignal = some true →
        runStep s optSignal dfltSignal optTimeout cl = (.abortError, s)) ∧
    (jsCoalesce optSignal dfltSignal ≠ some true →
      ¬ (s.active : ℚ) < s.limit → queueIsFull s = true →
        runStep s optSignal dfltSignal optTimeout cl = (.queueOverflow, s)) := by
  constructor
  · intro hsig
    simp [runStep, hv, hsig]
  · intro hsig hlim hfull
    simp [runStep, hv, hsig, hlim, hfull]

/-- Witness for C4: a limiter with limit 1, maxQueue 0 and a running task
rejects a further signal-free submission with Queue-Overflow, unchanged. -/
theorem run_refusal_atomic_witness :
    validTimeoutMs (jsCoalesce none ovState.defaultQueueTimeoutMs) = true ∧
    ((jsCoalesce (none : Option Bool) none = some true →
        runStep ovState none none none [] = (.abortError, ovState)) ∧
     (jsCoalesce (none : Option Bool) none ≠ some true →
      ¬ (ovState.active : ℚ) < ovState.limit → queueIsFull ovState = true →
        runStep ovState none none none [] = (.queueOverflow, ovState))) :=
  ⟨rfl, run_refusal_atomic ovState none none none [] rfl⟩

/-- C5: with a valid timeout and no already-aborted signal, onIdle resolves
immediately — registering no idle waiter, abort listener, or timer and
leaving the state untouched — exactly when active = 0 and the queue is
empty; a non-idle state registers a waiter instead, and a registered waiter
is only ever notified (hence resolved) in an idle state, where all current
waiters fire. -/
theorem onIdle_iff_idle (s : LimiterState) (signal : Option Bool) (timeoutMs : Option JSNum)
    (hv : validTimeoutMs timeoutMs = true) (hs : signal ≠ some true) :
    (s.active = 0 ∧ s.queue.length = 0 →
        onIdle s signal timeoutMs = (.immediate, s, 0)) ∧
    (¬ (s.active = 0 ∧ s.queue.length = 0) →
        (onIdle s signal timeoutMs).1 = .registered s.nextWid) ∧
    ((emitIdleIfNeeded s).2 ≠ [] → s.active = 0 ∧ s.queue.length = 0) ∧
    (s.active = 0 ∧ s.queue.length = 0 → (emitIdleIfNeeded s).2 = s.idleWaiters) := by
  refine ⟨?_, ?_, ?_, ?_⟩
  · intro hidle
    simp [onIdle, hv, hs, hidle]
  · intro hnid
    have hnid2 : ¬ (s.active = 0 ∧ s.queue = []) := by
      intro hc
      exact hnid ⟨hc.1, by rw [hc.2]; rfl⟩
    simp [onIdle, hv, hs, hnid2]
  · intro hne
    by_contra hno
    rw [not_and_or] at hno
    have hz : emitIdleIfNeeded s = (s, []) := by
      unfold emitIdleIfNeeded
      rw [if_pos hno]
    rw [hz] at hne
    exact hne rfl
  · intro hidle
    have hcond : ¬ (s.active ≠ 0 ∨ s.queue.length ≠ 0) := by
      rw [not_or]
      exact ⟨fun h => h hidle.1, fun h => h hidle.2⟩
    unfold emitIdleIfNeeded
    rw [if_neg hcond]

/-- Witness for C5 at an idle limiter with no signal and no timeout. -/
theorem onIdle_iff_idle_witness :
    (validTimeoutMs none = true ∧ (none : Option Bool) ≠ some true) ∧
    ((demo0.active = 0 ∧ demo0.queue.length = 0 →
        onIdle demo0 none none = (.immediate, demo0, 0)) ∧
     (¬ (demo0.active = 0 ∧ demo0.queue.length = 0) →
        (onIdle demo0 none none).1 = .registered demo0.nextWid) ∧
     ((emitIdleIfNeeded demo0).2 ≠ [] → demo0.active = 0 ∧ demo0.queue.length = 0) ∧
     (demo0.active = 0 ∧ demo0.queue.length = 0 →
        (emitIdleIfNeeded demo0).2 = demo0.idleWaiters)) :=
  ⟨⟨rfl, by decide⟩, onIdle_iff_idle demo0 none none rfl (by decide)⟩

/-- C8: in every reachable state every entry still in the queue array is
unremoved, so pendingCount — the raw array length — equals the number of
live (non-removed) entries. -/
theorem pendingCount_counts_live (s : LimiterState) (h : Reachable s) :
    (∀ e ∈ s.queue, e.removed = false) ∧
    s.pendingCount = (s.queue.filter (fun e => !e.removed)).length := by
  have hi := reachable_inv h
  have hall : ∀ e ∈ s.queue, e.removed = false := fun e he => (hi.queue_clean e he).1
  refine ⟨hall, ?_⟩
  have hfilter : s.queue.filter (fun e => !e.removed) = s.queue := by
    apply List.filter_eq_self.mpr
    intro e he
    simp [hall e he]
  rw [hfilter]
  rfl

/-- Witness for C8 at a saturated limiter with two queued entries. -/
theorem pendingCount_counts_live_witness :
    (∀ e ∈ demo3.queue, e.removed = false) ∧
    demo3.pendingCount = (demo3.queue.filter (fun e => !e.removed)).length :=
  pendingCount_counts_live demo3 demo3_reachable

end AsyncLimiter
